import Mathlib

/-!
# Column blocks of `common/columnblock.h`

A shallow embedding of `ColumnBlock`, `ColumnBlockCell`, `ColumnDataView` and
`ScopedColumnBlock`.

* Pointers are natural-number addresses into one byte-addressed memory
  (`Mem`); the null pointer is address `0`.
* `size_t` arithmetic is arithmetic modulo `2 ^ 64` (`size_add`, `size_sub`,
  `size_mul`).  Pointer arithmetic is plain addition of an address and a byte
  offset.
* A failed `DCHECK` is the result `none`; operations without a `DCHECK` are
  total.
* A `ColumnBlock` never changes its own fields after construction, so the
  `ColumnBlock *` held by a `ColumnDataView` and the `ColumnBlock` copied into a
  `ColumnBlockCell` are both the descriptor itself; the bytes they point to live
  in the shared `Mem`.
* A typed element (`cpp_type`) is the list of its bytes; the allocations of a
  `ScopedColumnBlock` are parameters of its constructor.
-/

namespace Kudu

/-! ## Machine model -/

/-- Number of values of the 64-bit type `size_t`. -/
def SIZE_RANGE : Nat := 2 ^ 64

/-- Addition of two `size_t` values. -/
def size_add (a b : Nat) : Nat := (a + b) % SIZE_RANGE

/-- Subtraction of two `size_t` values; it wraps around below zero. -/
def size_sub (a b : Nat) : Nat := (a + (SIZE_RANGE - b % SIZE_RANGE)) % SIZE_RANGE

/-- Multiplication of two `size_t` values. -/
def size_mul (a b : Nat) : Nat := (a * b) % SIZE_RANGE

/-- The null pointer. -/
def NULL : Nat := 0

/-- Byte-addressed memory: the byte stored at every address. -/
abbrev Mem := Nat → Nat

/-- Store of one `uint8_t` at address `a`. -/
def Mem.store (m : Mem) (a v : Nat) : Mem := fun x => if x = a then v % 256 else m x

/-! ## Collaborators that are not part of `columnblock.h` -/

/-- Modelled from the spec: the Type Descriptor of `common/types.h`, which
"reports per-element byte size and a type identifier" and is immutable while a
view references it. -/
structure TypeInfo where
  /-- The type identifier, `type()`. -/
  type : Nat
  /-- The bytes per cell, `size()`. -/
  size : Nat
deriving DecidableEq, Repr

/-- Modelled from the spec: `BitmapSize` of `util/bitmap.h`; a bitmap of
`num_bits` bits takes `ceil(num_bits / 8)` bytes. -/
def BitmapSize (num_bits : Nat) : Nat := (num_bits + 7) / 8

/-- Modelled from the spec: `BitmapTest` of `util/bitmap.h`, the primitive
`test(bitmap, idx) -> bool`; the bit of index `idx` is "bit `i` of byte `i/8` at
position `i%8`". -/
def BitmapTest (m : Mem) (bitmap idx : Nat) : Bool :=
  (m (bitmap + idx / 8)).testBit (idx % 8)

/-- One byte with the bit at position `pos` set to `value`, the other bits kept. -/
def changeBit (byte pos : Nat) (value : Bool) : Nat :=
  if value then byte ||| (1 <<< pos) else byte &&& (255 ^^^ (1 <<< pos))

/-- Modelled from the spec: `BitmapChange` of `util/bitmap.h`; it sets the bit
of index `idx` (bit `idx % 8` of byte `idx / 8`) to `value`. -/
def BitmapChange (m : Mem) (bitmap idx : Nat) (value : Bool) : Mem :=
  m.store (bitmap + idx / 8) (changeBit (m (bitmap + idx / 8)) (idx % 8) value)

/-- Modelled from the spec: `BitmapChangeBits` of `util/bitmap.h`, the primitive
`set_bit_range(bitmap, start, count, value)`; it sets the `num_bits` bits
starting at index `offset` to `value`. -/
def BitmapChangeBits (m : Mem) (bitmap offset : Nat) : Nat → Bool → Mem
  | 0, _ => m
  | n + 1, value =>
    BitmapChange (BitmapChangeBits m bitmap offset n value) bitmap (offset + n) value

/-- Modelled from the spec: `strings::memcpy_inlined` of `gutil/strings/fastmem.h`,
"purely a memory copy": the `n` bytes at `dst` become the `n` bytes that were at
`src` before the call. -/
def memcpy_inlined (m : Mem) (dst src n : Nat) : Mem :=
  fun x => if dst ≤ x ∧ x < dst + n then m (src + (x - dst)) else m x

/-! ## `ColumnBlock` -/

/-- The fields of `class ColumnBlock`. -/
structure ColumnBlock where
  /-- Member `const TypeInfo &type_`. -/
  type_ : TypeInfo
  /-- Member `uint8_t *null_bitmap_`. -/
  null_bitmap_ : Nat
  /-- Member `uint8_t *data_`. -/
  data_ : Nat
  /-- Member `size_t nrows_`. -/
  nrows_ : Nat
  /-- Member `Arena *arena_`. -/
  arena_ : Nat
deriving DecidableEq, Repr

namespace ColumnBlock

/-- The constructor: `DCHECK(data_) << "null data"`. -/
def new (type : TypeInfo) (null_bitmap data nrows arena : Nat) : Option ColumnBlock :=
  if data ≠ NULL then some ⟨type, null_bitmap, data, nrows, arena⟩ else none

/-- Member `null_bitmap()`. -/
def null_bitmap (b : ColumnBlock) : Nat := b.null_bitmap_

/-- Member `is_nullable()`: `null_bitmap_ != NULL`. -/
def is_nullable (b : ColumnBlock) : Bool := b.null_bitmap_ != NULL

/-- Member `stride()`: `type_.size()`. -/
def stride (b : ColumnBlock) : Nat := b.type_.size

/-- Member `data()`. -/
def data (b : ColumnBlock) : Nat := b.data_

/-- Member `nrows()`. -/
def nrows (b : ColumnBlock) : Nat := b.nrows_

/-- Member `arena()`. -/
def arena (b : ColumnBlock) : Nat := b.arena_

/-- Member `type_info()`. -/
def type_info (b : ColumnBlock) : TypeInfo := b.type_

/-- Member `cell_ptr(idx)`: `DCHECK_LT(idx, nrows_); return data_ + type_.size() * idx;`. -/
def cell_ptr (b : ColumnBlock) (idx : Nat) : Option Nat :=
  if idx < b.nrows_ then some (b.data_ + size_mul b.type_.size idx) else none

/-- Member `mutable_cell_ptr(idx)`: the private, writable variant of `cell_ptr`. -/
def mutable_cell_ptr (b : ColumnBlock) (idx : Nat) : Option Nat :=
  if idx < b.nrows_ then some (b.data_ + size_mul b.type_.size idx) else none

/-- Member `is_null(idx)`: `DCHECK(is_nullable()); DCHECK_LT(idx, nrows_);
return !BitmapTest(null_bitmap_, idx);`. -/
def is_null (b : ColumnBlock) (m : Mem) (idx : Nat) : Option Bool :=
  if b.is_nullable then
    if idx < b.nrows_ then some (!BitmapTest m b.null_bitmap_ idx) else none
  else none

/-- Member `nullable_cell_ptr(idx)`: `is_null(idx) ? NULL : cell_ptr(idx)`. -/
def nullable_cell_ptr (b : ColumnBlock) (m : Mem) (idx : Nat) : Option Nat :=
  match b.is_null m idx with
  | none => none
  | some true => some NULL
  | some false => b.cell_ptr idx

/-- Member `SetCellIsNull(idx, is_null)`: `DCHECK(is_nullable());
BitmapChange(null_bitmap_, idx, !is_null);`. -/
def SetCellIsNull (b : ColumnBlock) (m : Mem) (idx : Nat) (is_null : Bool) : Option Mem :=
  if b.is_nullable then some (BitmapChange m b.null_bitmap_ idx (!is_null)) else none

/-- Member `SetCellValue(idx, new_val)`:
`memcpy_inlined(mutable_cell_ptr(idx), new_val, type_.size())`. -/
def SetCellValue (b : ColumnBlock) (m : Mem) (idx new_val : Nat) : Option Mem :=
  match b.mutable_cell_ptr idx with
  | none => none
  | some p => some (memcpy_inlined m p new_val b.type_.size)

/-- The invariants of a Column View: the constructor's `DCHECK(data_)`, the
range of the `size_t` fields, and a data buffer of `nrows_ * type_.size()` bytes
at `data_` that lies inside the address space. -/
structure WellFormed (b : ColumnBlock) : Prop where
  data_nonnull : b.data_ ≠ NULL
  nrows_lt : b.nrows_ < SIZE_RANGE
  size_lt : b.type_.size < SIZE_RANGE
  data_fits : b.data_ + b.type_.size * b.nrows_ ≤ SIZE_RANGE

end ColumnBlock

/-! ## `ColumnBlockCell` -/

/-- The fields of `class ColumnBlockCell`: a copy of the view descriptor and a
row index. -/
structure ColumnBlockCell where
  /-- Member `ColumnBlock block_`. -/
  block_ : ColumnBlock
  /-- Member `size_t row_idx_`. -/
  row_idx_ : Nat
deriving DecidableEq, Repr

namespace ColumnBlockCell

/-- Member `type()`: `block_.type_info().type()`. -/
def type (c : ColumnBlockCell) : Nat := c.block_.type_info.type

/-- Member `size()`: `block_.type_info().size()`. -/
def size (c : ColumnBlockCell) : Nat := c.block_.type_info.size

/-- Member `ptr()`: `block_.cell_ptr(row_idx_)`. -/
def ptr (c : ColumnBlockCell) : Option Nat := c.block_.cell_ptr c.row_idx_

/-- Member `mutable_ptr()`: `block_.mutable_cell_ptr(row_idx_)`. -/
def mutable_ptr (c : ColumnBlockCell) : Option Nat := c.block_.mutable_cell_ptr c.row_idx_

/-- Member `is_nullable()`: `block_.is_nullable()`. -/
def is_nullable (c : ColumnBlockCell) : Bool := c.block_.is_nullable

/-- Member `is_null()`: `block_.is_null(row_idx_)`. -/
def is_null (c : ColumnBlockCell) (m : Mem) : Option Bool := c.block_.is_null m c.row_idx_

/-- Member `set_null(is_null)`: `block_.SetCellIsNull(row_idx_, is_null)`. -/
def set_null (c : ColumnBlockCell) (m : Mem) (is_null : Bool) : Option Mem :=
  c.block_.SetCellIsNull m c.row_idx_ is_null

end ColumnBlockCell

/-- Member `ColumnBlock::cell(idx)`: `ColumnBlockCell(*this, idx)`. -/
def ColumnBlock.cell (b : ColumnBlock) (idx : Nat) : ColumnBlockCell := ⟨b, idx⟩

/-! ## `ColumnDataView` -/

/-- The fields of `class ColumnDataView`. -/
structure ColumnDataView where
  /-- Member `ColumnBlock *column_block_`. -/
  column_block_ : ColumnBlock
  /-- Member `size_t row_offset_`. -/
  row_offset_ : Nat
deriving DecidableEq, Repr

namespace ColumnDataView

/-- Member `Advance(skip)`: `DCHECK_LE(skip, column_block_->nrows()); row_offset_ += skip;`. -/
def Advance (v : ColumnDataView) (skip : Nat) : Option ColumnDataView :=
  if skip ≤ v.column_block_.nrows then
    some ⟨v.column_block_, size_add v.row_offset_ skip⟩
  else none

/-- The constructor: `row_offset_(0)`, then `Advance(first_row_idx)`. -/
def new (column_block : ColumnBlock) (first_row_idx : Nat) : Option ColumnDataView :=
  Advance ⟨column_block, 0⟩ first_row_idx

/-- Member `first_row_index()`. -/
def first_row_index (v : ColumnDataView) : Nat := v.row_offset_

/-- Member `SetNullBits(nrows, value)`:
`BitmapChangeBits(column_block_->null_bitmap(), row_offset_, nrows, value)`. -/
def SetNullBits (v : ColumnDataView) (m : Mem) (nrows : Nat) (value : Bool) : Mem :=
  BitmapChangeBits m v.column_block_.null_bitmap v.row_offset_ nrows value

/-- The mutable `data()`: `column_block_->mutable_cell_ptr(row_offset_)`. -/
def data_mut (v : ColumnDataView) : Option Nat := v.column_block_.mutable_cell_ptr v.row_offset_

/-- The read-only `data() const`: `column_block_->cell_ptr(row_offset_)`. -/
def data (v : ColumnDataView) : Option Nat := v.column_block_.cell_ptr v.row_offset_

/-- Member `arena()`. -/
def arena (v : ColumnDataView) : Nat := v.column_block_.arena

/-- Member `nrows()`: `column_block_->nrows() - row_offset_`. -/
def nrows (v : ColumnDataView) : Nat := size_sub v.column_block_.nrows v.row_offset_

/-- Member `stride()`. -/
def stride (v : ColumnDataView) : Nat := v.column_block_.stride

/-- Member `type_info()`. -/
def type_info (v : ColumnDataView) : TypeInfo := v.column_block_.type_info

/-- A sequence of calls `Advance(k1); Advance(k2); ...` on one cursor; the
sequence stops at the first failed check. -/
def advanceSeq : ColumnDataView → List Nat → Option ColumnDataView
  | v, [] => some v
  | v, k :: ks =>
    match v.Advance k with
    | none => none
    | some w => advanceSeq w ks

/-- Every step of the sequence `ks` is at most the rows remaining (`nrows()`)
on the cursor at that point. -/
def withinRemaining : ColumnDataView → List Nat → Bool
  | _, [] => true
  | v, k :: ks =>
    decide (k ≤ v.nrows) && withinRemaining ⟨v.column_block_, size_add v.row_offset_ k⟩ ks

end ColumnDataView

/-! ## The refinement reading of the cursor constructor and a sample view -/

/-- The constructor as the spec words it: a cursor built with initial skip `0`,
followed by `Advance(initial_skip)` "from offset 0". -/
def construct_then_advance_spec (column_block : ColumnBlock) (initial_skip : Nat) :
    Option ColumnDataView :=
  match ColumnDataView.new column_block 0 with
  | none => none
  | some v => v.Advance initial_skip

/-- A nullable view of 8 rows of 4-byte elements: data at `0x1000`, null bitmap
at `0x2000`, arena at `0x3000`. -/
def sampleBlock : ColumnBlock := ⟨⟨1, 4⟩, 8192, 4096, 8, 12288⟩

/-- A memory whose bytes are all zero. -/
def zeroMem : Mem := fun _ => 0

/-- A memory whose bytes are all `0xff`. -/
def onesMem : Mem := fun _ => 255

/-- A memory that holds the byte `(x * 7 + 3) % 256` at every address `x`. -/
def patternMem : Mem := fun x => (x * 7 + 3) % 256

/-! ## Buffers and typed elements -/

/-- The null bitmap, when present, and the data buffer are two separate buffers:
the `BitmapSize(nrows_)` bytes at `null_bitmap_` end before the
`nrows_ * type_.size()` bytes at `data_` start, or the other way round. -/
def ColumnBlock.SeparateBuffers (b : ColumnBlock) : Prop :=
  b.null_bitmap_ = NULL ∨
    b.null_bitmap_ + BitmapSize b.nrows_ ≤ b.data_ ∨
    b.data_ + b.type_.size * b.nrows_ ≤ b.null_bitmap_

/-- The call `SetCellValue(idx, new_val)` as a step of the whole state, the view
object and the memory: the body assigns no member of the view. -/
def ColumnBlock.SetCellValue_state (b : ColumnBlock) (m : Mem) (idx new_val : Nat) :
    Option (ColumnBlock × Mem) :=
  match b.SetCellValue m idx new_val with
  | none => none
  | some m' => some (b, m')

/-- The call `SetNullBits(nrows, value)` as a step of the whole state, the cursor
object and the memory: the body assigns no member of the cursor. -/
def ColumnDataView.SetNullBits_state (v : ColumnDataView) (m : Mem) (nrows : Nat)
    (value : Bool) : ColumnDataView × Mem :=
  (v, v.SetNullBits m nrows value)

/-- The `n` bytes of memory that start at address `p`. -/
def readBytes (m : Mem) (p n : Nat) : List Nat := (List.range n).map (fun i => m (p + i))

/-- The memory after the bytes `bytes` are stored from address `p` on. -/
def writeBytes (m : Mem) (p : Nat) (bytes : List Nat) : Mem :=
  fun x => if p ≤ x ∧ x < p + bytes.length then bytes.getD (x - p) 0 else m x

/-! ## `ScopedColumnBlock` -/

/-- The fields of `class ScopedColumnBlock<type>`: the base `ColumnBlock` and the
three owning members.  `sizeof_cpp_type` is `sizeof(TypeTraits<type>::cpp_type)`,
a parameter of the instantiation (`common/types.h` is not among the sources). -/
structure ScopedColumnBlock where
  /-- The base class `ColumnBlock`. -/
  base : ColumnBlock
  /-- The byte size of `cpp_type`. -/
  sizeof_cpp_type : Nat
  /-- Member `gscoped_array<uint8_t> null_bitmap_`. -/
  null_bitmap_ : Nat
  /-- Member `gscoped_array<cpp_type> data_`. -/
  data_ : Nat
  /-- Member `gscoped_ptr<Arena> arena_`. -/
  arena_ : Nat
deriving DecidableEq, Repr

namespace ScopedColumnBlock

/-- The constructor `ScopedColumnBlock(n_rows)`.  The addresses returned by
`new uint8_t[BitmapSize(n_rows)]`, `new cpp_type[n_rows]` and `new Arena(..)` are
the parameters `bitmap_alloc`, `data_alloc` and `arena_alloc`; `type_info` is
`GetTypeInfo(type)`.  The base is built first, then `null_bitmap_(null_bitmap())`,
`data_(reinterpret_cast<cpp_type *>(data()))` and `arena_(arena())`. -/
def new (type_info : TypeInfo) (sizeof_cpp_type bitmap_alloc data_alloc arena_alloc : Nat)
    (n_rows : Nat) : Option ScopedColumnBlock :=
  match ColumnBlock.new type_info bitmap_alloc data_alloc n_rows arena_alloc with
  | none => none
  | some b => some ⟨b, sizeof_cpp_type, b.null_bitmap, b.data, b.arena⟩

/-- The address of the element `data_[idx]` that `operator[](idx)` returns a
reference to: typed pointer arithmetic on `cpp_type *data_`. -/
def operator_index (sb : ScopedColumnBlock) (idx : Nat) : Nat :=
  sb.data_ + sb.sizeof_cpp_type * idx

/-- A read through `operator[](idx) const`: the bytes of the element. -/
def operator_index_read (sb : ScopedColumnBlock) (m : Mem) (idx : Nat) : List Nat :=
  readBytes m (sb.operator_index idx) sb.sizeof_cpp_type

/-- A write through the reference of `operator[](idx)`: the bytes `value` of a
`cpp_type` object are stored in the element. -/
def operator_index_write (sb : ScopedColumnBlock) (m : Mem) (idx : Nat) (value : List Nat) :
    Mem :=
  writeBytes m (sb.operator_index idx) value

end ScopedColumnBlock

/-- A 4-row block of 4-byte elements whose null bitmap lies inside its data
buffer, at the address of row 2. -/
def overlappingBlock : ColumnBlock := ⟨⟨1, 4⟩, 4104, 4096, 4, 12288⟩

/-! ## Bit and bitmap lemmas -/


theorem testBit_mod_256 (x i : Nat) : (x % 256).testBit i = (decide (i < 8) && x.testBit i) :=
  Nat.testBit_mod_two_pow x 8 i

theorem testBit_255 (i : Nat) : (255 : Nat).testBit i = decide (i < 8) :=
  Nat.testBit_two_pow_sub_one 8 i

theorem testBit_one_shiftLeft (pos i : Nat) : (1 <<< pos).testBit i = decide (i = pos) := by
  rw [Nat.testBit_shiftLeft]
  by_cases h : i = pos
  · subst h; simp
  · by_cases hle : pos ≤ i
    · obtain ⟨k, hk⟩ : ∃ k, i - pos = k + 1 := ⟨i - pos - 1, by omega⟩
      rw [hk, Nat.testBit_succ]
      simp [h]
    · simp [h, hle]

theorem changeBit_testBit_self (byte pos : Nat) (value : Bool) (hpos : pos < 8) :
    (changeBit byte pos value % 256).testBit pos = value := by
  cases value <;>
    simp [-Nat.testBit_shiftLeft, changeBit, testBit_mod_256, testBit_255, testBit_one_shiftLeft, hpos]

theorem changeBit_testBit_other (byte pos j : Nat) (value : Bool) (hj : j < 8) (hne : j ≠ pos) :
    (changeBit byte pos value % 256).testBit j = byte.testBit j := by
  cases value <;>
    simp [-Nat.testBit_shiftLeft, changeBit, testBit_mod_256, testBit_255, testBit_one_shiftLeft, hj, hne]

theorem BitmapTest_BitmapChange_self (m : Mem) (bitmap idx : Nat) (value : Bool) :
    BitmapTest (BitmapChange m bitmap idx value) bitmap idx = value := by
  simp [BitmapTest, BitmapChange, Mem.store, changeBit_testBit_self, Nat.mod_lt]

theorem BitmapTest_BitmapChange_other (m : Mem) (bitmap idx j : Nat) (value : Bool)
    (hne : j ≠ idx) :
    BitmapTest (BitmapChange m bitmap idx value) bitmap j = BitmapTest m bitmap j := by
  unfold BitmapTest BitmapChange Mem.store
  by_cases hbyte : j / 8 = idx / 8
  · have hpos : j % 8 ≠ idx % 8 := by omega
    simp [hbyte, changeBit_testBit_other _ _ _ _ (Nat.mod_lt j (by norm_num)) hpos]
  · simp [hbyte]

theorem BitmapTest_BitmapChangeBits_inside (m : Mem) (bitmap offset n : Nat) (value : Bool)
    (j : Nat) (hlo : offset ≤ j) (hhi : j < offset + n) :
    BitmapTest (BitmapChangeBits m bitmap offset n value) bitmap j = value := by
  induction n with
  | zero => omega
  | succ n ih =>
    unfold BitmapChangeBits
    by_cases hj : j = offset + n
    · subst hj; exact BitmapTest_BitmapChange_self _ _ _ _
    · rw [BitmapTest_BitmapChange_other _ _ _ _ _ hj]
      exact ih (by omega)

theorem BitmapTest_BitmapChangeBits_outside (m : Mem) (bitmap offset n : Nat) (value : Bool)
    (j : Nat) (hout : j < offset ∨ offset + n ≤ j) :
    BitmapTest (BitmapChangeBits m bitmap offset n value) bitmap j = BitmapTest m bitmap j := by
  induction n with
  | zero => rfl
  | succ n ih =>
    unfold BitmapChangeBits
    rw [BitmapTest_BitmapChange_other _ _ _ _ _ (by omega)]
    exact ih (by omega)


/-! ## Column View: addressing, null bits and cell values -/


theorem size_mul_of_wellFormed (b : ColumnBlock) (idx : Nat) (hwf : b.WellFormed)
    (hidx : idx < b.nrows) : size_mul b.type_.size idx = b.type_.size * idx := by
  have hle : b.type_.size * idx ≤ b.type_.size * b.nrows_ :=
    Nat.mul_le_mul_left _ (Nat.le_of_lt hidx)
  have hfit := hwf.data_fits
  have hpos : 0 < b.data_ := Nat.pos_of_ne_zero hwf.data_nonnull
  unfold size_mul
  exact Nat.mod_eq_of_lt (by omega)

theorem cell_ptr_of_wellFormed (b : ColumnBlock) (idx : Nat) (hwf : b.WellFormed)
    (hidx : idx < b.nrows) : b.cell_ptr idx = some (b.data + b.stride * idx) := by
  have hmul := size_mul_of_wellFormed b idx hwf hidx
  have hlt : idx < b.nrows_ := hidx
  simp [ColumnBlock.cell_ptr, hlt, hmul, ColumnBlock.data, ColumnBlock.stride]

theorem mutable_cell_ptr_eq_cell_ptr (b : ColumnBlock) (idx : Nat) :
    b.mutable_cell_ptr idx = b.cell_ptr idx := rfl

theorem sampleBlock_wellFormed : sampleBlock.WellFormed :=
  ⟨by decide, by decide, by decide, by decide⟩

/-- C1: for every well-formed Column View and every `idx < row_count`,
`cell_ptr(idx)` and `mutable_cell_ptr(idx)` both return the address
`data + stride() * idx`, where `stride()` is the element size of the type
descriptor. -/
theorem cell_ptr_mutable_cell_ptr_address (b : ColumnBlock) (idx : Nat)
    (hwf : b.WellFormed) (hidx : idx < b.nrows) :
    b.cell_ptr idx = some (b.data + b.stride * idx) ∧
    b.mutable_cell_ptr idx = some (b.data + b.stride * idx) ∧
    b.stride = b.type_info.size := by
  have hcell := cell_ptr_of_wellFormed b idx hwf hidx
  exact ⟨hcell, (mutable_cell_ptr_eq_cell_ptr b idx).trans hcell, rfl⟩

/-- The addressing theorem on row 3 of the sample view: both pointers are `0x1000 + 4 * 3`. -/
theorem cell_ptr_mutable_cell_ptr_address_witness :
    sampleBlock.WellFormed ∧ 3 < sampleBlock.nrows ∧
    sampleBlock.cell_ptr 3 = some (4096 + 4 * 3) ∧
    sampleBlock.mutable_cell_ptr 3 = some (4096 + 4 * 3) ∧
    sampleBlock.stride = 4 :=
  ⟨sampleBlock_wellFormed, by decide,
    cell_ptr_mutable_cell_ptr_address sampleBlock 3 sampleBlock_wellFormed (by decide)⟩

/-- C2: null round trip.  For every nullable Column View, every `idx < row_count`,
every memory content `m` (so every prior bitmap content) and every boolean `v`,
`set_cell_is_null(idx, v)` passes its check and afterwards `is_null(idx)` returns
`v`. -/
theorem set_cell_is_null_round_trip (b : ColumnBlock) (m : Mem) (idx : Nat) (v : Bool)
    (hnullable : b.is_nullable = true) (hidx : idx < b.nrows) :
    ∃ m', b.SetCellIsNull m idx v = some m' ∧ b.is_null m' idx = some v := by
  have hlt : idx < b.nrows_ := hidx
  refine ⟨BitmapChange m b.null_bitmap_ idx (!v), ?_, ?_⟩
  · simp [ColumnBlock.SetCellIsNull, hnullable]
  · simp [ColumnBlock.is_null, hnullable, hlt, BitmapTest_BitmapChange_self]

/-- The round trip on row 1 of the sample view, from a bitmap of all ones. -/
theorem set_cell_is_null_round_trip_witness :
    sampleBlock.is_nullable = true ∧ 1 < sampleBlock.nrows ∧
    ∃ m', sampleBlock.SetCellIsNull onesMem 1 true = some m' ∧
      sampleBlock.is_null m' 1 = some true :=
  ⟨by decide, by decide,
    set_cell_is_null_round_trip sampleBlock onesMem 1 true (by decide) (by decide)⟩

/-- C3: for every well-formed nullable Column View and every `idx < row_count`,
`nullable_cell_ptr(idx)` returns the NULL sentinel exactly when `is_null(idx)` is
true, and returns `cell_ptr(idx)`, the address `data + stride * idx`, otherwise. -/
theorem nullable_cell_ptr_null_iff (b : ColumnBlock) (m : Mem) (idx : Nat)
    (hwf : b.WellFormed) (hnullable : b.is_nullable = true) (hidx : idx < b.nrows) :
    (b.nullable_cell_ptr m idx = some NULL ↔ b.is_null m idx = some true) ∧
    b.nullable_cell_ptr m idx =
      (if b.is_null m idx = some true then some NULL else b.cell_ptr idx) ∧
    b.cell_ptr idx = some (b.data + b.stride * idx) := by
  have hlt : idx < b.nrows_ := hidx
  have hcell := cell_ptr_of_wellFormed b idx hwf hidx
  have hpos : 0 < b.data_ := Nat.pos_of_ne_zero hwf.data_nonnull
  have hne : b.data + b.stride * idx ≠ NULL := by
    unfold ColumnBlock.data NULL; omega
  cases hbit : BitmapTest m b.null_bitmap_ idx
  · have hnull : b.is_null m idx = some true := by
      simp [ColumnBlock.is_null, hnullable, hlt, hbit]
    simp [ColumnBlock.nullable_cell_ptr, hnull, hcell]
  · have hnull : b.is_null m idx = some false := by
      simp [ColumnBlock.is_null, hnullable, hlt, hbit]
    simp [ColumnBlock.nullable_cell_ptr, hnull, hcell, hne]

/-- The nullable pointer of row 2 of the sample view, on a bitmap of all ones. -/
theorem nullable_cell_ptr_null_iff_witness :
    sampleBlock.WellFormed ∧ sampleBlock.is_nullable = true ∧ 2 < sampleBlock.nrows ∧
    (sampleBlock.nullable_cell_ptr onesMem 2 = some NULL ↔
      sampleBlock.is_null onesMem 2 = some true) ∧
    sampleBlock.nullable_cell_ptr onesMem 2 =
      (if sampleBlock.is_null onesMem 2 = some true then some NULL
        else sampleBlock.cell_ptr 2) ∧
    sampleBlock.cell_ptr 2 = some (sampleBlock.data + sampleBlock.stride * 2) :=
  ⟨sampleBlock_wellFormed, by decide, by decide,
    nullable_cell_ptr_null_iff sampleBlock onesMem 2 sampleBlock_wellFormed (by decide)
      (by decide)⟩

theorem testBit_eq_false_iff_div_mod (x i : Nat) : x.testBit i = false ↔ x / 2 ^ i % 2 = 0 := by
  rw [Nat.testBit_to_div_mod]
  have := Nat.mod_two_eq_zero_or_one (x / 2 ^ i)
  constructor
  · intro h
    rcases this with h0 | h1
    · exact h0
    · simp [h1] at h
  · intro h
    simp [h]

theorem testBit_eq_true_iff_div_mod (x i : Nat) : x.testBit i = true ↔ x / 2 ^ i % 2 = 1 := by
  rw [Nat.testBit_to_div_mod]
  simp

theorem bit_of_BitmapChange (m : Mem) (bitmap idx : Nat) (value : Bool) :
    BitmapChange m bitmap idx value (bitmap + idx / 8) / 2 ^ (idx % 8) % 2 =
      if value then 1 else 0 := by
  have hself := BitmapTest_BitmapChange_self m bitmap idx value
  unfold BitmapTest at hself
  cases value
  · simpa using (testBit_eq_false_iff_div_mod _ _).1 hself
  · simpa using (testBit_eq_true_iff_div_mod _ _).1 hself

/-- C4: null-bitmap layout with the inverted convention.  For every nullable
Column View and every `idx < row_count`, `is_null(idx)` returns a result, and
that result is true if and only if bit `idx mod 8` of the bitmap byte
`idx div 8` is 0; `set_cell_is_null(idx, v)` stores 0 in that bit when `v` is
true and 1 when `v` is false. -/
theorem is_null_iff_bitmap_bit_zero (b : ColumnBlock) (m : Mem) (idx : Nat) (v : Bool)
    (hnullable : b.is_nullable = true) (hidx : idx < b.nrows) :
    (∃ r, b.is_null m idx = some r) ∧
    (b.is_null m idx = some true ↔ m (b.null_bitmap + idx / 8) / 2 ^ (idx % 8) % 2 = 0) ∧
    (∃ m', b.SetCellIsNull m idx v = some m' ∧
      m' (b.null_bitmap + idx / 8) / 2 ^ (idx % 8) % 2 = if v then 0 else 1) := by
  have hlt : idx < b.nrows_ := hidx
  refine ⟨⟨!BitmapTest m b.null_bitmap_ idx, by simp [ColumnBlock.is_null, hnullable, hlt]⟩, ?_, ?_⟩
  · rw [← testBit_eq_false_iff_div_mod]
    simp [ColumnBlock.is_null, hnullable, hlt, BitmapTest, ColumnBlock.null_bitmap]
  · refine ⟨BitmapChange m b.null_bitmap_ idx (!v),
      by simp [ColumnBlock.SetCellIsNull, hnullable], ?_⟩
    have hbit := bit_of_BitmapChange m b.null_bitmap_ idx (!v)
    cases v <;> simpa [ColumnBlock.null_bitmap] using hbit

/-- The bitmap layout read at row 5 of the sample view, on the pattern memory. -/
theorem is_null_iff_bitmap_bit_zero_witness :
    sampleBlock.is_nullable = true ∧ 5 < sampleBlock.nrows ∧
    (∃ r, sampleBlock.is_null patternMem 5 = some r) ∧
    (sampleBlock.is_null patternMem 5 = some true ↔
      patternMem (sampleBlock.null_bitmap + 5 / 8) / 2 ^ (5 % 8) % 2 = 0) ∧
    (∃ m', sampleBlock.SetCellIsNull patternMem 5 true = some m' ∧
      m' (sampleBlock.null_bitmap + 5 / 8) / 2 ^ (5 % 8) % 2 = if true then 0 else 1) :=
  ⟨by decide, by decide,
    is_null_iff_bitmap_bit_zero sampleBlock patternMem 5 true (by decide) (by decide)⟩

/-- C5: for every Column View, every `idx < row_count` and every source buffer at
address `new_val`, `set_cell_value(idx, new_val)` passes its bounds check and
afterwards each of the `element_size` bytes starting at `cell_ptr(idx)` equals
the byte at the same position of the source buffer. -/
theorem set_cell_value_copies_bytes (b : ColumnBlock) (m : Mem) (idx new_val : Nat)
    (hidx : idx < b.nrows) :
    ∃ m' p, b.SetCellValue m idx new_val = some m' ∧ b.cell_ptr idx = some p ∧
      ∀ i, i < b.type_info.size → m' (p + i) = m (new_val + i) := by
  have hlt : idx < b.nrows_ := hidx
  refine ⟨memcpy_inlined m (b.data_ + size_mul b.type_.size idx) new_val b.type_.size,
    b.data_ + size_mul b.type_.size idx, ?_, ?_, ?_⟩
  · simp [ColumnBlock.SetCellValue, ColumnBlock.mutable_cell_ptr, hlt]
  · simp [ColumnBlock.cell_ptr, hlt]
  · intro i hi
    have hi' : i < b.type_.size := hi
    simp [memcpy_inlined, hi']

/-- The cell write on row 0 of the sample view, from a source buffer at address 100. -/
theorem set_cell_value_copies_bytes_witness :
    0 < sampleBlock.nrows ∧
    ∃ m' p, sampleBlock.SetCellValue patternMem 0 100 = some m' ∧
      sampleBlock.cell_ptr 0 = some p ∧
      ∀ i, i < sampleBlock.type_info.size → m' (p + i) = patternMem (100 + i) :=
  ⟨by decide, set_cell_value_copies_bytes sampleBlock patternMem 0 100 (by decide)⟩

/-- C6: bulk null-set.  For every nullable Column View, every cursor over it at
offset `o` and every `count` with `o + count <= row_count`, after
`set_null_bits(count, true)` the query `is_null(o + i)` on the original view is
false for every `i < count`, and after `set_null_bits(count, false)` it is
true for every `i < count`. -/
theorem set_null_bits_sets_range (v : ColumnDataView) (m : Mem) (count : Nat)
    (hnullable : v.column_block_.is_nullable = true)
    (hrange : v.first_row_index + count ≤ v.column_block_.nrows) :
    ∀ i, i < count →
      v.column_block_.is_null (v.SetNullBits m count true) (v.first_row_index + i)
        = some false ∧
      v.column_block_.is_null (v.SetNullBits m count false) (v.first_row_index + i)
        = some true := by
  intro i hi
  have hlt : v.row_offset_ + i < v.column_block_.nrows_ := by
    have : v.row_offset_ + count ≤ v.column_block_.nrows_ := hrange
    omega
  constructor <;>
    simp [ColumnBlock.is_null, hnullable, hlt, ColumnDataView.SetNullBits,
      ColumnBlock.null_bitmap, ColumnDataView.first_row_index,
      BitmapTest_BitmapChangeBits_inside _ _ v.row_offset_ count _ (v.row_offset_ + i)
        (by omega) (by omega)]

/-- The bulk null-set of the end-to-end scenario: offset 3, two rows, on the 8-row sample view. -/
theorem set_null_bits_sets_range_witness :
    sampleBlock.is_nullable = true ∧ 3 + 2 ≤ sampleBlock.nrows ∧
    ∀ i, i < 2 →
      sampleBlock.is_null ((⟨sampleBlock, 3⟩ : ColumnDataView).SetNullBits onesMem 2 true)
        (3 + i) = some false ∧
      sampleBlock.is_null ((⟨sampleBlock, 3⟩ : ColumnDataView).SetNullBits onesMem 2 false)
        (3 + i) = some true :=
  ⟨by decide, by decide,
    set_null_bits_sets_range ⟨sampleBlock, 3⟩ onesMem 2 (by decide) (by decide)⟩

/-! ## Windowed cursor -/

theorem SIZE_RANGE_eq : SIZE_RANGE = 18446744073709551616 := by decide

theorem size_add_of_lt (a b : Nat) (h : a + b < SIZE_RANGE) : size_add a b = a + b :=
  Nat.mod_eq_of_lt h

theorem size_sub_of_le (a b : Nat) (hba : b ≤ a) (ha : a < SIZE_RANGE) :
    size_sub a b = a - b := by
  unfold size_sub
  rw [SIZE_RANGE_eq] at *
  omega

theorem Advance_of_le (v : ColumnDataView) (skip : Nat) (h : skip ≤ v.column_block_.nrows) :
    v.Advance skip = some ⟨v.column_block_, size_add v.row_offset_ skip⟩ := by
  simp [ColumnDataView.Advance, h]

theorem Advance_isSome_iff (v : ColumnDataView) (skip : Nat) :
    (v.Advance skip).isSome = true ↔ skip ≤ v.column_block_.nrows := by
  unfold ColumnDataView.Advance
  split <;> simp_all

theorem new_of_le (b : ColumnBlock) (k : Nat) (hn : b.nrows < SIZE_RANGE) (hk : k ≤ b.nrows) :
    ColumnDataView.new b k = some ⟨b, k⟩ := by
  unfold ColumnDataView.new
  rw [Advance_of_le _ _ hk, size_add_of_lt 0 k (by omega)]
  simp

theorem advanceSeq_of_withinRemaining (ks : List Nat) :
    ∀ v : ColumnDataView, v.column_block_.nrows < SIZE_RANGE →
      v.row_offset_ ≤ v.column_block_.nrows → v.withinRemaining ks = true →
      ∃ w, v.advanceSeq ks = some w ∧ w.column_block_ = v.column_block_ ∧
        w.row_offset_ = v.row_offset_ + ks.sum ∧ w.row_offset_ ≤ v.column_block_.nrows := by
  induction ks with
  | nil =>
    intro v _ ho _
    exact ⟨v, rfl, rfl, by simp, ho⟩
  | cons k ks ih =>
    intro v hn ho hks
    simp only [ColumnDataView.withinRemaining, Bool.and_eq_true, decide_eq_true_eq] at hks
    obtain ⟨hk, hrest⟩ := hks
    rw [ColumnDataView.nrows, size_sub_of_le _ _ ho hn] at hk
    have hadd : size_add v.row_offset_ k = v.row_offset_ + k := size_add_of_lt _ _ (by omega)
    rw [hadd] at hrest
    have hstep : v.row_offset_ + k ≤ v.column_block_.nrows := by omega
    obtain ⟨w, hw, hblock, hoff, hle⟩ :=
      ih ⟨v.column_block_, v.row_offset_ + k⟩ hn hstep hrest
    refine ⟨w, ?_, hblock, ?_, hle⟩
    · simp only [ColumnDataView.advanceSeq]
      rw [Advance_of_le v k (by omega), hadd]
      exact hw
    · rw [hoff, List.sum_cons]
      simp only
      omega

theorem withinRemaining_take (ks : List Nat) :
    ∀ (v : ColumnDataView) (j : Nat), v.withinRemaining ks = true →
      v.withinRemaining (ks.take j) = true := by
  induction ks with
  | nil => intro v j h; simpa using h
  | cons k ks ih =>
    intro v j h
    cases j with
    | zero => rfl
    | succ j =>
      simp only [ColumnDataView.withinRemaining, Bool.and_eq_true, decide_eq_true_eq,
        List.take_succ_cons] at h ⊢
      exact ⟨h.1, ih _ j h.2⟩

/-- C7: cursor monotonicity.  For every Column View, every initial skip
`s <= row_count` and every sequence `Advance(k1), ..., Advance(kn)` in which each
step is at most the rows remaining at that point, the cursor is constructed,
every call passes its check, `first_row_index()` after the sequence (and after
every prefix of it) equals `s` plus the sum of the steps taken, and it never
exceeds the view's `row_count`. -/
theorem advance_sequence_first_row_index (b : ColumnBlock) (s : Nat) (ks : List Nat)
    (hn : b.nrows < SIZE_RANGE) (hs : s ≤ b.nrows)
    (hks : (⟨b, s⟩ : ColumnDataView).withinRemaining ks = true) :
    ColumnDataView.new b s = some ⟨b, s⟩ ∧
    (∃ v, (⟨b, s⟩ : ColumnDataView).advanceSeq ks = some v ∧
      v.first_row_index = s + ks.sum ∧ v.first_row_index ≤ b.nrows) ∧
    ∀ j, ∃ v, (⟨b, s⟩ : ColumnDataView).advanceSeq (ks.take j) = some v ∧
      v.first_row_index = s + (ks.take j).sum ∧ v.first_row_index ≤ b.nrows := by
  refine ⟨new_of_le b s hn hs, ?_, ?_⟩
  · obtain ⟨w, hw, _, hoff, hle⟩ := advanceSeq_of_withinRemaining ks ⟨b, s⟩ hn hs hks
    exact ⟨w, hw, hoff, hle⟩
  · intro j
    obtain ⟨w, hw, _, hoff, hle⟩ :=
      advanceSeq_of_withinRemaining (ks.take j) ⟨b, s⟩ hn hs (withinRemaining_take ks _ j hks)
    exact ⟨w, hw, hoff, hle⟩

/-- The steps 2, 0, 3 from initial skip 3 on the 8-row sample view. -/
theorem advance_sequence_first_row_index_witness :
    sampleBlock.nrows < SIZE_RANGE ∧ 3 ≤ sampleBlock.nrows ∧
    (⟨sampleBlock, 3⟩ : ColumnDataView).withinRemaining [2, 0, 3] = true ∧
    ColumnDataView.new sampleBlock 3 = some ⟨sampleBlock, 3⟩ ∧
    (∃ v, (⟨sampleBlock, 3⟩ : ColumnDataView).advanceSeq [2, 0, 3] = some v ∧
      v.first_row_index = 3 + [2, 0, 3].sum ∧ v.first_row_index ≤ sampleBlock.nrows) ∧
    ∀ j, ∃ v, (⟨sampleBlock, 3⟩ : ColumnDataView).advanceSeq ([2, 0, 3].take j) = some v ∧
      v.first_row_index = 3 + ([2, 0, 3].take j).sum ∧
      v.first_row_index ≤ sampleBlock.nrows :=
  ⟨by decide, by decide, by decide,
    advance_sequence_first_row_index sampleBlock 3 [2, 0, 3] (by decide) (by decide)
      (by decide)⟩

/-- C8 (the code at the failing input): on the 8-row sample view a cursor
advanced exactly to the end has zero remaining rows, yet `Advance(1)` passes the
check `skip <= column_block_->nrows()`, moves `first_row_index()` to 9 and makes
`nrows()` wrap around to `2^64 - 1`; likewise `Advance(8)` is accepted on a
cursor at offset 5 with 3 remaining rows. -/
theorem advance_accepts_skip_past_end :
    ColumnDataView.new sampleBlock 8 = some ⟨sampleBlock, 8⟩ ∧
    (⟨sampleBlock, 8⟩ : ColumnDataView).nrows = 0 ∧
    (⟨sampleBlock, 8⟩ : ColumnDataView).Advance 1 = some ⟨sampleBlock, 9⟩ ∧
    (⟨sampleBlock, 9⟩ : ColumnDataView).nrows = 2 ^ 64 - 1 ∧
    ColumnDataView.new sampleBlock 5 = some ⟨sampleBlock, 5⟩ ∧
    (⟨sampleBlock, 5⟩ : ColumnDataView).nrows = 3 ∧
    (⟨sampleBlock, 5⟩ : ColumnDataView).Advance 8 = some ⟨sampleBlock, 13⟩ := by
  decide

/-- C9: cursor boundary.  For every cursor whose offset is at most the view's
`row_count`, `Advance(row_count())`, advancing by exactly the remaining rows,
passes the precondition check and leaves `row_count() == 0` and
`first_row_index() == view.row_count`. -/
theorem advance_remaining_reaches_end (v : ColumnDataView)
    (hn : v.column_block_.nrows < SIZE_RANGE)
    (ho : v.first_row_index ≤ v.column_block_.nrows) :
    ∃ w, v.Advance v.nrows = some w ∧ w.nrows = 0 ∧
      w.first_row_index = v.column_block_.nrows := by
  have ho' : v.row_offset_ ≤ v.column_block_.nrows := ho
  have hrem : v.nrows = v.column_block_.nrows - v.row_offset_ := size_sub_of_le _ _ ho' hn
  have hadd : size_add v.row_offset_ (v.column_block_.nrows - v.row_offset_)
      = v.column_block_.nrows := by
    rw [size_add_of_lt _ _ (by omega)]; omega
  refine ⟨⟨v.column_block_, v.column_block_.nrows⟩, ?_, ?_, rfl⟩
  · rw [hrem, Advance_of_le v _ (by omega), hadd]
  · show size_sub v.column_block_.nrows v.column_block_.nrows = 0
    rw [size_sub_of_le _ _ (Nat.le_refl _) hn]; omega

/-- The cursor at offset 3 of the 8-row sample view, advanced by its 5 remaining rows. -/
theorem advance_remaining_reaches_end_witness :
    sampleBlock.nrows < SIZE_RANGE ∧
    (⟨sampleBlock, 3⟩ : ColumnDataView).first_row_index ≤ sampleBlock.nrows ∧
    ∃ w, (⟨sampleBlock, 3⟩ : ColumnDataView).Advance (⟨sampleBlock, 3⟩ : ColumnDataView).nrows
        = some w ∧ w.nrows = 0 ∧ w.first_row_index = sampleBlock.nrows :=
  ⟨by decide, by decide,
    advance_remaining_reaches_end ⟨sampleBlock, 3⟩ (by decide) (by decide)⟩

/-- C10: for every Column View and every initial skip `k <= row_count`, the
constructor with initial skip `k` yields the same cursor as construction with
skip 0 followed by `Advance(k)`; on that cursor `first_row_index() == k` and
`row_count() == view.row_count - k`, so the two add up to `view.row_count`. -/
theorem new_eq_construct_then_advance (b : ColumnBlock) (k : Nat)
    (hn : b.nrows < SIZE_RANGE) (hk : k ≤ b.nrows) :
    ColumnDataView.new b k = construct_then_advance_spec b k ∧
    ∃ v, ColumnDataView.new b k = some v ∧ v.first_row_index = k ∧
      v.nrows = b.nrows - k ∧ v.first_row_index + v.nrows = b.nrows := by
  have hnew := new_of_le b k hn hk
  have hzero := new_of_le b 0 hn (Nat.zero_le _)
  refine ⟨?_, ⟨b, k⟩, hnew, rfl, ?_, ?_⟩
  · simp only [construct_then_advance_spec, hzero]
    rfl
  · exact size_sub_of_le _ _ hk hn
  · show k + size_sub b.nrows k = b.nrows
    rw [size_sub_of_le _ _ hk hn]; omega

/-- The constructor with initial skip 3 on the 8-row sample view. -/
theorem new_eq_construct_then_advance_witness :
    sampleBlock.nrows < SIZE_RANGE ∧ 3 ≤ sampleBlock.nrows ∧
    ColumnDataView.new sampleBlock 3 = construct_then_advance_spec sampleBlock 3 ∧
    ∃ v, ColumnDataView.new sampleBlock 3 = some v ∧ v.first_row_index = 3 ∧
      v.nrows = sampleBlock.nrows - 3 ∧ v.first_row_index + v.nrows = sampleBlock.nrows :=
  ⟨by decide, by decide, new_eq_construct_then_advance sampleBlock 3 (by decide) (by decide)⟩

/-! ## Cursor data pointer, cell handle and nullability -/

theorem offset_lt_of_remaining (v : ColumnDataView) (hn : v.column_block_.nrows < SIZE_RANGE)
    (ho : v.row_offset_ ≤ v.column_block_.nrows) :
    0 < v.nrows ↔ v.row_offset_ < v.column_block_.nrows := by
  rw [ColumnDataView.nrows, size_sub_of_le _ _ ho hn]
  omega

/-- C11: for every cursor over a well-formed view whose offset respects the
cursor invariant and that has at least one remaining row, `data()`, in the
mutable and in the read-only variant, returns the address of the first
unconsumed cell, `view.data() + stride() * first_row_index()`, and `stride()`
and `type_info()` are those of the underlying view. -/
theorem cursor_data_first_unconsumed_cell (v : ColumnDataView)
    (hwf : v.column_block_.WellFormed)
    (ho : v.first_row_index ≤ v.column_block_.nrows) (hrem : 0 < v.nrows) :
    v.data = some (v.column_block_.data + v.stride * v.first_row_index) ∧
    v.data_mut = some (v.column_block_.data + v.stride * v.first_row_index) ∧
    v.stride = v.column_block_.stride ∧
    v.type_info = v.column_block_.type_info := by
  have hlt : v.row_offset_ < v.column_block_.nrows :=
    (offset_lt_of_remaining v hwf.nrows_lt ho).1 hrem
  have hcell := cell_ptr_of_wellFormed v.column_block_ v.row_offset_ hwf hlt
  exact ⟨hcell, (mutable_cell_ptr_eq_cell_ptr _ _).trans hcell, rfl, rfl⟩

/-- The cursor at offset 3 of the 8-row sample view: `data()` is `0x1000 + 4 * 3`. -/
theorem cursor_data_first_unconsumed_cell_witness :
    sampleBlock.WellFormed ∧
    (⟨sampleBlock, 3⟩ : ColumnDataView).first_row_index ≤ sampleBlock.nrows ∧
    0 < (⟨sampleBlock, 3⟩ : ColumnDataView).nrows ∧
    (⟨sampleBlock, 3⟩ : ColumnDataView).data = some (4096 + 4 * 3) ∧
    (⟨sampleBlock, 3⟩ : ColumnDataView).data_mut = some (4096 + 4 * 3) ∧
    (⟨sampleBlock, 3⟩ : ColumnDataView).stride = sampleBlock.stride ∧
    (⟨sampleBlock, 3⟩ : ColumnDataView).type_info = sampleBlock.type_info :=
  ⟨sampleBlock_wellFormed, by decide, by decide,
    cursor_data_first_unconsumed_cell ⟨sampleBlock, 3⟩ sampleBlock_wellFormed (by decide)
      (by decide)⟩

/-- C12: a Cell Handle holds a copy of the view descriptor and works on the
same memory.  For every nullable Column View `b`, `idx < row_count` and boolean
`v`, `cell(idx).set_null(v)` passes its check and afterwards the handle's
`is_null()` and the original view's `is_null(idx)` both return `v`.  For every
view `c` and index `k`, nullable or not, the handle holds `c` itself,
`cell(k).ptr() == cell_ptr(k)`, `cell(k).mutable_ptr()` is the same pointer,
`cell(k).size() == stride()` and `cell(k).is_nullable() == is_nullable()`. -/
theorem cell_handle_delegates (b : ColumnBlock) (m : Mem) (idx : Nat) (v : Bool)
    (c : ColumnBlock) (k : Nat)
    (hnullable : b.is_nullable = true) (hidx : idx < b.nrows) :
    (∃ m', (b.cell idx).set_null m v = some m' ∧
      (b.cell idx).is_null m' = some v ∧ b.is_null m' idx = some v) ∧
    (c.cell k).block_ = c ∧
    (c.cell k).ptr = c.cell_ptr k ∧
    (c.cell k).mutable_ptr = c.cell_ptr k ∧
    (c.cell k).size = c.stride ∧
    (c.cell k).is_nullable = c.is_nullable := by
  have hlt : idx < b.nrows_ := hidx
  refine ⟨⟨BitmapChange m b.null_bitmap_ idx (!v), ?_, ?_, ?_⟩, rfl, rfl, rfl, rfl, rfl⟩
  · simp [ColumnBlock.cell, ColumnBlockCell.set_null, ColumnBlock.SetCellIsNull, hnullable]
  · simp [ColumnBlock.cell, ColumnBlockCell.is_null, ColumnBlock.is_null, hnullable, hlt,
      BitmapTest_BitmapChange_self]
  · simp [ColumnBlock.is_null, hnullable, hlt, BitmapTest_BitmapChange_self]

/-- The handle of row 1 of the sample view, set to null on a bitmap of all ones,
and the handle of row 9 of the same buffers without a bitmap. -/
theorem cell_handle_delegates_witness :
    sampleBlock.is_nullable = true ∧ 1 < sampleBlock.nrows ∧
    (∃ m', (sampleBlock.cell 1).set_null onesMem true = some m' ∧
      (sampleBlock.cell 1).is_null m' = some true ∧ sampleBlock.is_null m' 1 = some true) ∧
    ((⟨⟨1, 4⟩, NULL, 4096, 8, 12288⟩ : ColumnBlock).cell 9).block_
      = ⟨⟨1, 4⟩, NULL, 4096, 8, 12288⟩ ∧
    ((⟨⟨1, 4⟩, NULL, 4096, 8, 12288⟩ : ColumnBlock).cell 9).ptr
      = (⟨⟨1, 4⟩, NULL, 4096, 8, 12288⟩ : ColumnBlock).cell_ptr 9 ∧
    ((⟨⟨1, 4⟩, NULL, 4096, 8, 12288⟩ : ColumnBlock).cell 9).mutable_ptr
      = (⟨⟨1, 4⟩, NULL, 4096, 8, 12288⟩ : ColumnBlock).cell_ptr 9 ∧
    ((⟨⟨1, 4⟩, NULL, 4096, 8, 12288⟩ : ColumnBlock).cell 9).size
      = (⟨⟨1, 4⟩, NULL, 4096, 8, 12288⟩ : ColumnBlock).stride ∧
    ((⟨⟨1, 4⟩, NULL, 4096, 8, 12288⟩ : ColumnBlock).cell 9).is_nullable
      = (⟨⟨1, 4⟩, NULL, 4096, 8, 12288⟩ : ColumnBlock).is_nullable :=
  ⟨by decide, by decide,
    cell_handle_delegates sampleBlock onesMem 1 true ⟨⟨1, 4⟩, NULL, 4096, 8, 12288⟩ 9
      (by decide) (by decide)⟩

/-- C13: for every Column View, `is_nullable()` is true if and only if
`null_bitmap()` is not NULL; a view constructed with a NULL bitmap pointer (and
a non-null data pointer, as the constructor asserts) has `is_nullable() == false`
and `null_bitmap() == NULL`. -/
theorem is_nullable_iff_null_bitmap (b : ColumnBlock) (type : TypeInfo)
    (data nrows arena : Nat) (hdata : data ≠ NULL) :
    (b.is_nullable = true ↔ b.null_bitmap ≠ NULL) ∧
    ∃ w, ColumnBlock.new type NULL data nrows arena = some w ∧
      w.is_nullable = false ∧ w.null_bitmap = NULL := by
  refine ⟨?_, ⟨type, NULL, data, nrows, arena⟩, ?_, ?_, rfl⟩
  · simp [ColumnBlock.is_nullable, ColumnBlock.null_bitmap]
  · simp [ColumnBlock.new, hdata]
  · simp [ColumnBlock.is_nullable]

/-- The sample view is nullable; the same buffers without a bitmap are not. -/
theorem is_nullable_iff_null_bitmap_witness :
    (4096 : Nat) ≠ NULL ∧
    (sampleBlock.is_nullable = true ↔ sampleBlock.null_bitmap ≠ NULL) ∧
    ∃ w, ColumnBlock.new ⟨1, 4⟩ NULL 4096 8 12288 = some w ∧
      w.is_nullable = false ∧ w.null_bitmap = NULL :=
  ⟨by decide, is_nullable_iff_null_bitmap sampleBlock ⟨1, 4⟩ 4096 8 12288 (by decide)⟩

/-! ## Owned test block -/

theorem readBytes_length (m : Mem) (p n : Nat) : (readBytes m p n).length = n := by
  simp [readBytes]

theorem readBytes_congr (m m' : Mem) (p q n : Nat) (h : ∀ i, i < n → m' (q + i) = m (p + i)) :
    readBytes m' q n = readBytes m p n := by
  unfold readBytes
  apply List.map_congr_left
  intro i hi
  exact h i (List.mem_range.1 hi)

theorem readBytes_writeBytes (m : Mem) (p : Nat) (value : List Nat) :
    readBytes (writeBytes m p value) p value.length = value := by
  apply List.ext_getElem
  · simp [readBytes]
  · intro i h1 h2
    simp [readBytes, writeBytes, h2]

theorem readBytes_memcpy_inlined (m : Mem) (dst src n : Nat) :
    readBytes (memcpy_inlined m dst src n) dst n = readBytes m src n := by
  apply readBytes_congr
  intro i hi
  simp [memcpy_inlined, hi]

/-- C14: an Owned Test Block of `n_rows` rows, built on the buffers that its
three allocations return (non-null, the data buffer inside the address space),
whose `cpp_type` has the byte size of its type descriptor.  The block is
nullable and reports `nrows() == n_rows`; for every `idx < n_rows` the element
of `operator[](idx)` is at the address `cell_ptr(idx)`, a value written through
`operator[](idx)` is what the `stride()` bytes at `cell_ptr(idx)` hold, and the
bytes written by `SetCellValue(idx, src)` are what `operator[](idx)` reads. -/
theorem scoped_block_operator_index_consistent (type_info : TypeInfo)
    (sizeof_cpp_type bitmap_alloc data_alloc arena_alloc n_rows : Nat)
    (m : Mem) (idx src : Nat) (value : List Nat)
    (hbitmap : bitmap_alloc ≠ NULL) (hdata : data_alloc ≠ NULL)
    (hrows : n_rows < SIZE_RANGE) (hsize : type_info.size < SIZE_RANGE)
    (hfit : data_alloc + type_info.size * n_rows ≤ SIZE_RANGE)
    (hsame : sizeof_cpp_type = type_info.size)
    (hidx : idx < n_rows) (hvalue : value.length = sizeof_cpp_type) :
    ∃ sb, ScopedColumnBlock.new type_info sizeof_cpp_type bitmap_alloc data_alloc arena_alloc
        n_rows = some sb ∧
      sb.base.is_nullable = true ∧ sb.base.nrows = n_rows ∧
      sb.base.cell_ptr idx = some (sb.operator_index idx) ∧
      readBytes (sb.operator_index_write m idx value) (sb.operator_index idx) sb.base.stride
        = value ∧
      ∃ m', sb.base.SetCellValue m idx src = some m' ∧
        sb.operator_index_read m' idx = readBytes m src sb.base.stride := by
  subst hsame
  have hwf : (⟨type_info, bitmap_alloc, data_alloc, n_rows, arena_alloc⟩ : ColumnBlock).WellFormed :=
    ⟨hdata, hrows, hsize, hfit⟩
  have hcell := cell_ptr_of_wellFormed _ idx hwf hidx
  refine ⟨⟨⟨type_info, bitmap_alloc, data_alloc, n_rows, arena_alloc⟩, type_info.size,
    bitmap_alloc, data_alloc, arena_alloc⟩, ?_, ?_, rfl, hcell, ?_, ?_⟩
  · simp [ScopedColumnBlock.new, ColumnBlock.new, hdata, ColumnBlock.null_bitmap,
      ColumnBlock.data, ColumnBlock.arena]
  · simpa [ColumnBlock.is_nullable] using hbitmap
  · show readBytes (writeBytes m _ value) _ type_info.size = value
    rw [← hvalue]
    exact readBytes_writeBytes m _ value
  · refine ⟨memcpy_inlined m (data_alloc + type_info.size * idx) src type_info.size, ?_, ?_⟩
    · have hmut := (mutable_cell_ptr_eq_cell_ptr _ idx).trans hcell
      simp only [ColumnBlock.SetCellValue, hmut]
      rfl
    · exact readBytes_memcpy_inlined m _ src type_info.size

/-- An owned block of 8 rows of 4-byte elements: the element of `operator[](2)`
written with the bytes 4, 3, 2, 1. -/
theorem scoped_block_operator_index_consistent_witness :
    (8192 : Nat) ≠ NULL ∧ (4096 : Nat) ≠ NULL ∧ 8 < SIZE_RANGE ∧
    (⟨1, 4⟩ : TypeInfo).size < SIZE_RANGE ∧
    4096 + (⟨1, 4⟩ : TypeInfo).size * 8 ≤ SIZE_RANGE ∧ 4 = (⟨1, 4⟩ : TypeInfo).size ∧
    2 < 8 ∧ [4, 3, 2, 1].length = 4 ∧
    ∃ sb, ScopedColumnBlock.new ⟨1, 4⟩ 4 8192 4096 12288 8 = some sb ∧
      sb.base.is_nullable = true ∧ sb.base.nrows = 8 ∧
      sb.base.cell_ptr 2 = some (sb.operator_index 2) ∧
      readBytes (sb.operator_index_write patternMem 2 [4, 3, 2, 1]) (sb.operator_index 2)
        sb.base.stride = [4, 3, 2, 1] ∧
      ∃ m', sb.base.SetCellValue patternMem 2 100 = some m' ∧
        sb.operator_index_read m' 2 = readBytes patternMem 100 sb.base.stride :=
  ⟨by decide, by decide, by decide, by decide, by decide, by decide, by decide, by decide,
    scoped_block_operator_index_consistent ⟨1, 4⟩ 4 8192 4096 12288 8 patternMem 2 100
      [4, 3, 2, 1] (by decide) (by decide) (by decide) (by decide) (by decide) (by decide)
      (by decide) (by decide)⟩

/-! ## Dense layout and frame properties -/

theorem sampleBlock_separateBuffers : sampleBlock.SeparateBuffers :=
  Or.inr (Or.inr (by decide))

theorem memcpy_inlined_apply_outside (m : Mem) (dst src n a : Nat)
    (h : a < dst ∨ dst + n ≤ a) : memcpy_inlined m dst src n a = m a := by
  have : ¬(dst ≤ a ∧ a < dst + n) := by omega
  simp [memcpy_inlined, this]

theorem BitmapChange_apply_of_ne (m : Mem) (bitmap idx a : Nat) (value : Bool)
    (h : a ≠ bitmap + idx / 8) : BitmapChange m bitmap idx value a = m a := by
  simp [BitmapChange, Mem.store, h]

theorem BitmapChangeBits_apply_of_ne (m : Mem) (bitmap offset n a : Nat) (value : Bool)
    (h : ∀ j, offset ≤ j → j < offset + n → a ≠ bitmap + j / 8) :
    BitmapChangeBits m bitmap offset n value a = m a := by
  induction n with
  | zero => rfl
  | succ n ih =>
    unfold BitmapChangeBits
    rw [BitmapChange_apply_of_ne _ _ _ _ _ (h (offset + n) (by omega) (by omega))]
    exact ih (fun j hlo hhi => h j hlo (by omega))

theorem bitmap_byte_not_in_data (b : ColumnBlock) (hsep : b.SeparateBuffers)
    (hnullable : b.is_nullable = true) (j a : Nat) (hj : j < b.nrows)
    (hlo : b.data ≤ a) (hhi : a < b.data + b.stride * b.nrows) :
    a ≠ b.null_bitmap_ + j / 8 := by
  have hne : b.null_bitmap_ ≠ NULL := by simpa [ColumnBlock.is_nullable] using hnullable
  have hjn : j < b.nrows_ := hj
  have hlo' : b.data_ ≤ a := hlo
  have hhi' : a < b.data_ + b.type_.size * b.nrows_ := hhi
  unfold ColumnBlock.SeparateBuffers BitmapSize at hsep
  rcases hsep with h | h | h
  · exact absurd h hne
  · omega
  · omega

theorem cell_range_le (b : ColumnBlock) (i : Nat) (hi : i < b.nrows) :
    b.stride * i + b.stride ≤ b.stride * b.nrows := by
  have h : b.stride * (i + 1) ≤ b.stride * b.nrows := Nat.mul_le_mul_left _ hi
  rwa [Nat.mul_succ] at h

theorem cell_ranges_ordered (s i j : Nat) (hij : i < j) : s * i + s ≤ s * j := by
  have h : s * (i + 1) ≤ s * j := Nat.mul_le_mul_left _ hij
  rwa [Nat.mul_succ] at h

/-- C15: dense layout.  For every well-formed Column View with `stride > 0` and
all indices `i, j < row_count`, the bytes of cell `i` start at offset
`stride * i` of the data buffer and the range `[stride*i, stride*i + stride)`
lies inside `[0, row_count*stride)`; for `i != j` the byte ranges of the two
cells are disjoint and the two pointers differ. -/
theorem cell_ranges_dense_disjoint (b : ColumnBlock) (i j : Nat) (hwf : b.WellFormed)
    (hstride : 0 < b.stride) (hi : i < b.nrows) (hj : j < b.nrows) :
    ∃ p q, b.cell_ptr i = some p ∧ b.cell_ptr j = some q ∧
      p = b.data + b.stride * i ∧ q = b.data + b.stride * j ∧
      b.stride * i + b.stride ≤ b.nrows * b.stride ∧
      p + b.stride ≤ b.data + b.nrows * b.stride ∧
      (i ≠ j → (p + b.stride ≤ q ∨ q + b.stride ≤ p) ∧ p ≠ q) := by
  have hri := cell_range_le b i hi
  refine ⟨_, _, cell_ptr_of_wellFormed b i hwf hi, cell_ptr_of_wellFormed b j hwf hj,
    rfl, rfl, ?_, ?_, ?_⟩
  · rw [Nat.mul_comm b.nrows]; exact hri
  · rw [Nat.mul_comm b.nrows]; omega
  · intro hne
    rcases Nat.lt_or_gt_of_ne hne with h | h
    · have := cell_ranges_ordered b.stride i j h
      exact ⟨Or.inl (by omega), by omega⟩
    · have := cell_ranges_ordered b.stride j i h
      exact ⟨Or.inr (by omega), by omega⟩

/-- Rows 2 and 5 of the sample view: 4-byte cells at `0x1008` and `0x1014`. -/
theorem cell_ranges_dense_disjoint_witness :
    sampleBlock.WellFormed ∧ 0 < sampleBlock.stride ∧ 2 < sampleBlock.nrows ∧
    5 < sampleBlock.nrows ∧
    ∃ p q, sampleBlock.cell_ptr 2 = some p ∧ sampleBlock.cell_ptr 5 = some q ∧
      p = sampleBlock.data + sampleBlock.stride * 2 ∧
      q = sampleBlock.data + sampleBlock.stride * 5 ∧
      sampleBlock.stride * 2 + sampleBlock.stride ≤ sampleBlock.nrows * sampleBlock.stride ∧
      p + sampleBlock.stride ≤ sampleBlock.data + sampleBlock.nrows * sampleBlock.stride ∧
      (2 ≠ 5 → (p + sampleBlock.stride ≤ q ∨ q + sampleBlock.stride ≤ p) ∧ p ≠ q) :=
  ⟨sampleBlock_wellFormed, by decide, by decide, by decide,
    cell_ranges_dense_disjoint sampleBlock 2 5 sampleBlock_wellFormed (by decide) (by decide)
      (by decide)⟩

theorem is_null_congr (b : ColumnBlock) (m m' : Mem)
    (h : ∀ k, k < BitmapSize b.nrows → m' (b.null_bitmap + k) = m (b.null_bitmap + k))
    (j : Nat) : b.is_null m' j = b.is_null m j := by
  unfold ColumnBlock.is_null
  by_cases hn : b.is_nullable = true
  · by_cases hj : j < b.nrows_
    · have hk : j / 8 < BitmapSize b.nrows := by
        unfold BitmapSize ColumnBlock.nrows; omega
      have hb := h (j / 8) hk
      simp only [ColumnBlock.null_bitmap] at hb
      simp [hn, hj, BitmapTest, hb]
    · simp [hj]
  · simp [hn]

theorem overlappingBlock_wellFormed : overlappingBlock.WellFormed :=
  ⟨by decide, by decide, by decide, by decide⟩

/-- C16 (counterexample): `overlappingBlock` is a well-formed nullable view of 4
rows of 4-byte cells whose null bitmap pointer `0x1008` is the address of row 2
of its data buffer at `0x1000`.  On the pattern memory row 2 is null; the call
`SetCellValue(2, 100)` passes its check, stores the source byte `191` in the
bitmap byte that held `59`, and afterwards `is_null(2)` is false: the null
bitmap and an `is_null` result did change. -/
theorem set_cell_value_changes_null_bitmap_on_overlap :
    overlappingBlock.WellFormed ∧ 2 < overlappingBlock.nrows ∧
    ¬ overlappingBlock.SeparateBuffers ∧
    overlappingBlock.cell_ptr 2 = some overlappingBlock.null_bitmap ∧
    patternMem overlappingBlock.null_bitmap = 59 ∧
    overlappingBlock.is_null patternMem 2 = some true ∧
    ∃ m', overlappingBlock.SetCellValue patternMem 2 100 = some m' ∧
      m' overlappingBlock.null_bitmap = 191 ∧
      overlappingBlock.is_null m' 2 = some false := by
  refine ⟨overlappingBlock_wellFormed, by decide, ?_, by decide, by decide, by decide,
    memcpy_inlined patternMem 4104 100 4, rfl, by decide, by decide⟩
  unfold ColumnBlock.SeparateBuffers
  decide

/-- C16 (amended): frame of `SetCellValue`.  For every well-formed Column View
and every `idx < row_count`, `SetCellValue(idx, new_val)` passes its check,
leaves the bytes of every other cell `j != idx` unchanged and leaves the view
object, so `nrows()`, `stride()` and `data()`, unchanged; when the null bitmap
is absent or is a buffer that does not overlap the data buffer, the call also
leaves every byte of the null bitmap and every `is_null` result unchanged. -/
theorem set_cell_value_frame (b : ColumnBlock) (m : Mem) (idx new_val : Nat)
    (hwf : b.WellFormed) (hidx : idx < b.nrows) :
    ∃ b' m', b.SetCellValue_state m idx new_val = some (b', m') ∧
      b.SetCellValue m idx new_val = some m' ∧
      (∀ j, j < b.nrows → j ≠ idx →
        ∃ q, b.cell_ptr j = some q ∧ ∀ i, i < b.stride → m' (q + i) = m (q + i)) ∧
      (b'.nrows = b.nrows ∧ b'.stride = b.stride ∧ b'.data = b.data ∧ b' = b) ∧
      (b.SeparateBuffers →
        (b.is_nullable = true →
          ∀ k, k < BitmapSize b.nrows → m' (b.null_bitmap + k) = m (b.null_bitmap + k)) ∧
        (∀ j, b.is_null m' j = b.is_null m j)) := by
  have hcell := cell_ptr_of_wellFormed b idx hwf hidx
  have hmut := (mutable_cell_ptr_eq_cell_ptr b idx).trans hcell
  have hset : b.SetCellValue m idx new_val
      = some (memcpy_inlined m (b.data + b.stride * idx) new_val b.type_.size) := by
    simp only [ColumnBlock.SetCellValue, hmut]
  have hrange := cell_range_le b idx hidx
  have hbitmap : b.SeparateBuffers → b.is_nullable = true →
      ∀ k, k < BitmapSize b.nrows →
        memcpy_inlined m (b.data + b.stride * idx) new_val b.type_.size (b.null_bitmap + k)
          = m (b.null_bitmap + k) := by
    intro hsep hn k hk
    apply memcpy_inlined_apply_outside
    have hne : b.null_bitmap_ ≠ NULL := by simpa [ColumnBlock.is_nullable] using hn
    unfold ColumnBlock.SeparateBuffers at hsep
    simp only [ColumnBlock.data, ColumnBlock.stride, ColumnBlock.nrows,
      ColumnBlock.null_bitmap] at hrange hk ⊢
    rcases hsep with h | h | h
    · exact absurd h hne
    · omega
    · omega
  refine ⟨b, _, ?_, hset, ?_, ⟨rfl, rfl, rfl, rfl⟩, ?_⟩
  · simp only [ColumnBlock.SetCellValue_state, hset]
  · intro j hj hne
    refine ⟨_, cell_ptr_of_wellFormed b j hwf hj, ?_⟩
    intro i hi
    apply memcpy_inlined_apply_outside
    show b.data + b.stride * j + i < b.data + b.stride * idx ∨
      b.data + b.stride * idx + b.stride ≤ b.data + b.stride * j + i
    rcases Nat.lt_or_gt_of_ne hne with h | h
    · have := cell_ranges_ordered b.stride j idx h
      left; omega
    · have := cell_ranges_ordered b.stride idx j h
      right; omega
  · intro hsep
    refine ⟨hbitmap hsep, ?_⟩
    by_cases hn : b.is_nullable = true
    · exact is_null_congr b m _ (hbitmap hsep hn)
    · intro j
      simp [ColumnBlock.is_null, hn]

/-- The write of row 2 of the sample view, whose bitmap at `0x2000` is separate
from its data at `0x1000`, from a source buffer at address 100: every part of
the frame holds there. -/
theorem set_cell_value_frame_witness :
    sampleBlock.WellFormed ∧ 2 < sampleBlock.nrows ∧ sampleBlock.SeparateBuffers ∧
    sampleBlock.is_nullable = true ∧
    ∃ b' m', sampleBlock.SetCellValue_state patternMem 2 100 = some (b', m') ∧
      sampleBlock.SetCellValue patternMem 2 100 = some m' ∧
      (∀ j, j < sampleBlock.nrows → j ≠ 2 →
        ∃ q, sampleBlock.cell_ptr j = some q ∧
          ∀ i, i < sampleBlock.stride → m' (q + i) = patternMem (q + i)) ∧
      (b'.nrows = sampleBlock.nrows ∧ b'.stride = sampleBlock.stride ∧
        b'.data = sampleBlock.data ∧ b' = sampleBlock) ∧
      (∀ k, k < BitmapSize sampleBlock.nrows →
        m' (sampleBlock.null_bitmap + k) = patternMem (sampleBlock.null_bitmap + k)) ∧
      (∀ j, sampleBlock.is_null m' j = sampleBlock.is_null patternMem j) := by
  obtain ⟨b', m', hstate, hset, hcells, hobject, hsep⟩ :=
    set_cell_value_frame sampleBlock patternMem 2 100 sampleBlock_wellFormed (by decide)
  have hframe := hsep sampleBlock_separateBuffers
  exact ⟨sampleBlock_wellFormed, by decide, sampleBlock_separateBuffers, by decide,
    b', m', hstate, hset, hcells, hobject, hframe.1 (by decide), hframe.2⟩

/-- C17 (counterexample): on `overlappingBlock`, whose null bitmap pointer
`0x1008` is the address of row 2 of its data buffer, `SetCellIsNull(0, true)` on
the memory of all ones passes its check and clears bit 0 of the byte at
`0x1008`: a byte of the data buffer `[0x1000, 0x1010)` changed from 255 to 254. -/
theorem set_cell_is_null_changes_data_on_overlap :
    overlappingBlock.is_nullable = true ∧ 0 < overlappingBlock.nrows ∧
    overlappingBlock.data ≤ 4104 ∧
    4104 < overlappingBlock.data + overlappingBlock.stride * overlappingBlock.nrows ∧
    onesMem 4104 = 255 ∧
    ∃ m', overlappingBlock.SetCellIsNull onesMem 0 true = some m' ∧ m' 4104 = 254 := by
  exact ⟨by decide, by decide, by decide, by decide, by decide,
    BitmapChange onesMem 4104 0 false, rfl, by decide⟩

/-- C17 (amended): frame of `SetCellIsNull`.  For every nullable Column View,
every `idx < row_count` and boolean `v`, `SetCellIsNull(idx, v)` passes its
check and leaves `is_null(j)` unchanged for every `j != idx` with
`j < row_count`; when the null bitmap is a buffer that does not overlap the data
buffer, the call also leaves every byte of the data buffer unchanged. -/
theorem set_cell_is_null_frame (b : ColumnBlock) (m : Mem) (idx : Nat) (v : Bool)
    (hnullable : b.is_nullable = true) (hidx : idx < b.nrows) :
    ∃ m', b.SetCellIsNull m idx v = some m' ∧
      (∀ j, j < b.nrows → j ≠ idx → b.is_null m' j = b.is_null m j) ∧
      (b.SeparateBuffers →
        ∀ a, b.data ≤ a → a < b.data + b.stride * b.nrows → m' a = m a) := by
  refine ⟨BitmapChange m b.null_bitmap_ idx (!v), ?_, ?_, ?_⟩
  · simp [ColumnBlock.SetCellIsNull, hnullable]
  · intro j hj hne
    have hlt : j < b.nrows_ := hj
    simp [ColumnBlock.is_null, hnullable, hlt, BitmapTest_BitmapChange_other _ _ _ _ _ hne]
  · intro hsep a hlo hhi
    exact BitmapChange_apply_of_ne _ _ _ _ _
      (bitmap_byte_not_in_data b hsep hnullable idx a hidx hlo hhi)

/-- Row 1 of the sample view, whose bitmap is separate from its data, set to
null on the pattern memory: every part of the frame holds there. -/
theorem set_cell_is_null_frame_witness :
    sampleBlock.is_nullable = true ∧ 1 < sampleBlock.nrows ∧ sampleBlock.SeparateBuffers ∧
    ∃ m', sampleBlock.SetCellIsNull patternMem 1 true = some m' ∧
      (∀ j, j < sampleBlock.nrows → j ≠ 1 →
        sampleBlock.is_null m' j = sampleBlock.is_null patternMem j) ∧
      (∀ a, sampleBlock.data ≤ a → a < sampleBlock.data + sampleBlock.stride * sampleBlock.nrows →
        m' a = patternMem a) := by
  obtain ⟨m', hset, hrows, hdata⟩ :=
    set_cell_is_null_frame sampleBlock patternMem 1 true (by decide) (by decide)
  exact ⟨by decide, by decide, sampleBlock_separateBuffers, m', hset, hrows,
    hdata sampleBlock_separateBuffers⟩

/-- C18 (counterexample): on `overlappingBlock`, whose null bitmap pointer
`0x1008` is the address of row 2 of its data buffer, the cursor at offset 1 with
`1 + 2 <= 4` rows calls `SetNullBits(2, false)` on the memory of all ones; bits
1 and 2 of the byte at `0x1008` are cleared: a byte of the data buffer
`[0x1000, 0x1010)` changed from 255 to 249. -/
theorem set_null_bits_changes_data_on_overlap :
    overlappingBlock.is_nullable = true ∧
    (⟨overlappingBlock, 1⟩ : ColumnDataView).first_row_index + 2 ≤ overlappingBlock.nrows ∧
    ColumnDataView.new overlappingBlock 1 = some ⟨overlappingBlock, 1⟩ ∧
    overlappingBlock.data ≤ 4104 ∧
    4104 < overlappingBlock.data + overlappingBlock.stride * overlappingBlock.nrows ∧
    onesMem 4104 = 255 ∧
    (⟨overlappingBlock, 1⟩ : ColumnDataView).SetNullBits onesMem 2 false 4104 = 249 := by
  decide

/-- C18 (amended): frame of `SetNullBits`.  For every nullable Column View, every
cursor over it at offset `o` and every `count` with `o + count <= row_count`,
`SetNullBits(count, value)` leaves `is_null(j)` unchanged for every row
`j < row_count` outside `[o, o + count)`, the consumed rows `j < o` included,
and leaves the cursor object, so its offset, unchanged; when the null bitmap is
a buffer that does not overlap the data buffer, the call also leaves every byte
of the data buffer unchanged. -/
theorem set_null_bits_frame (v : ColumnDataView) (m : Mem) (count : Nat) (value : Bool)
    (hnullable : v.column_block_.is_nullable = true)
    (hrange : v.first_row_index + count ≤ v.column_block_.nrows) :
    (∀ j, j < v.column_block_.nrows → (j < v.first_row_index ∨ v.first_row_index + count ≤ j) →
      v.column_block_.is_null (v.SetNullBits m count value) j = v.column_block_.is_null m j) ∧
    (∀ j, j < v.first_row_index →
      v.column_block_.is_null (v.SetNullBits m count value) j = v.column_block_.is_null m j) ∧
    ((v.SetNullBits_state m count value).1.first_row_index = v.first_row_index ∧
      (v.SetNullBits_state m count value).1 = v ∧
      (v.SetNullBits_state m count value).2 = v.SetNullBits m count value) ∧
    (v.column_block_.SeparateBuffers →
      ∀ a, v.column_block_.data ≤ a →
        a < v.column_block_.data + v.column_block_.stride * v.column_block_.nrows →
        v.SetNullBits m count value a = m a) := by
  have hrange' : v.row_offset_ + count ≤ v.column_block_.nrows := hrange
  have hout : ∀ j, j < v.column_block_.nrows →
      (j < v.row_offset_ ∨ v.row_offset_ + count ≤ j) →
      v.column_block_.is_null (v.SetNullBits m count value) j
        = v.column_block_.is_null m j := by
    intro j hj hjout
    have hlt : j < v.column_block_.nrows_ := hj
    simp [ColumnBlock.is_null, hnullable, hlt, ColumnDataView.SetNullBits,
      ColumnBlock.null_bitmap, BitmapTest_BitmapChangeBits_outside _ _ _ _ _ j hjout]
  refine ⟨hout, ?_, ⟨rfl, rfl, rfl⟩, ?_⟩
  · intro j hj
    exact hout j (by omega) (Or.inl hj)
  · intro hsep a hlo hhi
    apply BitmapChangeBits_apply_of_ne
    intro j _ hjhi
    exact bitmap_byte_not_in_data v.column_block_ hsep hnullable j a (by omega) hlo hhi

/-- The end-to-end scenario: the cursor at offset 3 of the 8-row sample view,
whose bitmap is separate from its data, marks two rows as null; every part of
the frame holds there. -/
theorem set_null_bits_frame_witness :
    sampleBlock.is_nullable = true ∧
    (⟨sampleBlock, 3⟩ : ColumnDataView).first_row_index + 2 ≤ sampleBlock.nrows ∧
    sampleBlock.SeparateBuffers ∧
    (∀ j, j < sampleBlock.nrows → (j < 3 ∨ 3 + 2 ≤ j) →
      sampleBlock.is_null ((⟨sampleBlock, 3⟩ : ColumnDataView).SetNullBits onesMem 2 false) j
        = sampleBlock.is_null onesMem j) ∧
    (∀ j, j < 3 →
      sampleBlock.is_null ((⟨sampleBlock, 3⟩ : ColumnDataView).SetNullBits onesMem 2 false) j
        = sampleBlock.is_null onesMem j) ∧
    (((⟨sampleBlock, 3⟩ : ColumnDataView).SetNullBits_state onesMem 2 false).1.first_row_index
        = 3 ∧
      ((⟨sampleBlock, 3⟩ : ColumnDataView).SetNullBits_state onesMem 2 false).1
        = ⟨sampleBlock, 3⟩ ∧
      ((⟨sampleBlock, 3⟩ : ColumnDataView).SetNullBits_state onesMem 2 false).2
        = (⟨sampleBlock, 3⟩ : ColumnDataView).SetNullBits onesMem 2 false) ∧
    (∀ a, sampleBlock.data ≤ a →
      a < sampleBlock.data + sampleBlock.stride * sampleBlock.nrows →
      (⟨sampleBlock, 3⟩ : ColumnDataView).SetNullBits onesMem 2 false a = onesMem a) := by
  obtain ⟨hout, hconsumed, hobject, hdata⟩ :=
    set_null_bits_frame ⟨sampleBlock, 3⟩ onesMem 2 false (by decide) (by decide)
  exact ⟨by decide, by decide, sampleBlock_separateBuffers, hout, hconsumed, hobject,
    hdata sampleBlock_separateBuffers⟩

/-! ## The bounds assertion behind the cursor data pointer -/

/-- C19: for every cursor whose offset is at most the view's `row_count`, the
bounds assertion `idx < nrows_` behind `data()`, in both variants, holds if and
only if `nrows()` of the cursor is positive.  So `data()` fails that assertion
on the cursor that `Advance(nrows())` leaves at the very end, and on every
cursor over a view of zero rows. -/
theorem cursor_data_assertion_iff_remaining (v : ColumnDataView)
    (hn : v.column_block_.nrows < SIZE_RANGE)
    (ho : v.first_row_index ≤ v.column_block_.nrows) :
    (v.data.isSome = true ↔ 0 < v.nrows) ∧
    (v.data_mut.isSome = true ↔ 0 < v.nrows) ∧
    (∃ w, v.Advance v.nrows = some w ∧ w.data = none ∧ w.data_mut = none) ∧
    (v.column_block_.nrows = 0 → v.data = none ∧ v.data_mut = none) := by
  have ho' : v.row_offset_ ≤ v.column_block_.nrows := ho
  have hiff := offset_lt_of_remaining v hn ho'
  have hdata : v.data.isSome = true ↔ v.row_offset_ < v.column_block_.nrows := by
    unfold ColumnDataView.data ColumnBlock.cell_ptr ColumnBlock.nrows
    split <;> simp_all
  have hrem : v.nrows = v.column_block_.nrows - v.row_offset_ := size_sub_of_le _ _ ho' hn
  have hadd : size_add v.row_offset_ (v.column_block_.nrows - v.row_offset_)
      = v.column_block_.nrows := by
    rw [size_add_of_lt _ _ (by omega)]; omega
  refine ⟨hdata.trans hiff.symm, hdata.trans hiff.symm, ?_, ?_⟩
  · refine ⟨⟨v.column_block_, v.column_block_.nrows⟩, ?_, ?_, ?_⟩
    · rw [hrem, Advance_of_le v _ (by omega), hadd]
    · simp [ColumnDataView.data, ColumnBlock.cell_ptr, ColumnBlock.nrows]
    · simp [ColumnDataView.data_mut, ColumnBlock.mutable_cell_ptr, ColumnBlock.nrows]
  · intro hzero
    have hzero' : v.column_block_.nrows_ = 0 := hzero
    simp [ColumnDataView.data, ColumnDataView.data_mut, ColumnBlock.cell_ptr,
      ColumnBlock.mutable_cell_ptr, hzero']

/-- The cursor at offset 3 of the 8-row sample view: `data()` is defined there
and fails its assertion after `Advance(5)`. -/
theorem cursor_data_assertion_iff_remaining_witness :
    sampleBlock.nrows < SIZE_RANGE ∧
    (⟨sampleBlock, 3⟩ : ColumnDataView).first_row_index ≤ sampleBlock.nrows ∧
    ((⟨sampleBlock, 3⟩ : ColumnDataView).data.isSome = true ↔
      0 < (⟨sampleBlock, 3⟩ : ColumnDataView).nrows) ∧
    ((⟨sampleBlock, 3⟩ : ColumnDataView).data_mut.isSome = true ↔
      0 < (⟨sampleBlock, 3⟩ : ColumnDataView).nrows) ∧
    (∃ w, (⟨sampleBlock, 3⟩ : ColumnDataView).Advance (⟨sampleBlock, 3⟩ : ColumnDataView).nrows
        = some w ∧ w.data = none ∧ w.data_mut = none) ∧
    (sampleBlock.nrows = 0 →
      (⟨sampleBlock, 3⟩ : ColumnDataView).data = none ∧
      (⟨sampleBlock, 3⟩ : ColumnDataView).data_mut = none) :=
  ⟨by decide, by decide,
    cursor_data_assertion_iff_remaining ⟨sampleBlock, 3⟩ (by decide) (by decide)⟩

end Kudu
